import Mathlib

/-!
Shallow embedding of the image-redaction service core
(coordinate resolver, redaction pipeline dispatch, job store,
batch orchestrator, webhook retry, request schemas), translated
from the TypeScript sources, together with proofs of the spec claims.

JavaScript `number` values that the code only ever uses at integral
values (pixel coordinates, sizes, timestamps) are modelled as `Int`
or `Nat`; unit-interval (normalized) coordinates are modelled as `Rat`.
-/

namespace ImageRedaction

/-! ### Coordinate resolver (utils/coords.ts) -/

/-- `pixelCoordinatesSchema` of schemas.ts: `{x, y, width, height}` integers. -/
structure PixelCoordinates where
  x : Int
  y : Int
  width : Int
  height : Int
deriving DecidableEq, Repr

/-- `normalizedCoordinatesSchema` of schemas.ts: four unit-interval reals. -/
structure NormalizedCoordinates where
  x_norm : Rat
  y_norm : Rat
  w_norm : Rat
  h_norm : Rat
deriving DecidableEq, Repr

/-- The `Coordinates` union of dtos.ts.  The type guards
`isPixelCoordinates` / `isNormalizedCoordinates` become the two
constructors of this sum; the guards are exhaustive on this union, so
the `throw` for an unknown coordinate shape in `toPixelCoordinates`
is unreachable. -/
inductive Coordinates where
  | pixel (c : PixelCoordinates)
  | normalized (c : NormalizedCoordinates)
deriving DecidableEq, Repr

structure ImageDimensions where
  width : Int
  height : Int
deriving DecidableEq, Repr

/-- JavaScript `Math.round`: rounds half toward positive infinity. -/
def jsRound (q : Rat) : Int := ⌊q + 1/2⌋

/-- `normalizedToPixel` of utils/coords.ts. -/
def normalizedToPixel (coords : NormalizedCoordinates) (dimensions : ImageDimensions) :
    PixelCoordinates where
  x := jsRound (coords.x_norm * dimensions.width)
  y := jsRound (coords.y_norm * dimensions.height)
  width := jsRound (coords.w_norm * dimensions.width)
  height := jsRound (coords.h_norm * dimensions.height)

/-- `toPixelCoordinates` of utils/coords.ts. -/
def toPixelCoordinates (coords : Coordinates) (dimensions : ImageDimensions) :
    PixelCoordinates :=
  match coords with
  | .pixel c => c
  | .normalized c => normalizedToPixel c dimensions

/-- `clampToImageBounds` of utils/coords.ts.  Note that `x` is clamped
with `Math.max(0, Math.min(coords.x, dimensions.width))`, i.e. into the
closed interval `[0, width]`, and the width floor of 1 is applied after
capping at the remaining space. -/
def clampToImageBounds (coords : PixelCoordinates) (dimensions : ImageDimensions) :
    PixelCoordinates :=
  let x := max 0 (min coords.x dimensions.width)
  let y := max 0 (min coords.y dimensions.height)
  let maxWidth := dimensions.width - x
  let maxHeight := dimensions.height - y
  let width := max 1 (min coords.width maxWidth)
  let height := max 1 (min coords.height maxHeight)
  { x := x, y := y, width := width, height := height }

/-- `processCoordinates` of utils/coords.ts: convert then clamp. -/
def processCoordinates (coords : Coordinates) (dimensions : ImageDimensions) :
    PixelCoordinates :=
  clampToImageBounds (toPixelCoordinates coords dimensions) dimensions

/-- Validity of a pixel rectangle per `pixelCoordinatesSchema`
(zod: `x ≥ 0`, `y ≥ 0`, `width ≥ 1`, `height ≥ 1`). -/
def PixelCoordinates.schemaValid (c : PixelCoordinates) : Prop :=
  0 ≤ c.x ∧ 0 ≤ c.y ∧ 1 ≤ c.width ∧ 1 ≤ c.height

/-- Validity per `normalizedCoordinatesSchema` (all four fields in `[0,1]`). -/
def NormalizedCoordinates.schemaValid (c : NormalizedCoordinates) : Prop :=
  0 ≤ c.x_norm ∧ c.x_norm ≤ 1 ∧ 0 ≤ c.y_norm ∧ c.y_norm ≤ 1 ∧
  0 ≤ c.w_norm ∧ c.w_norm ≤ 1 ∧ 0 ≤ c.h_norm ∧ c.h_norm ≤ 1

def Coordinates.schemaValid : Coordinates → Prop
  | .pixel c => c.schemaValid
  | .normalized c => c.schemaValid

instance (c : PixelCoordinates) : Decidable c.schemaValid := by
  unfold PixelCoordinates.schemaValid; infer_instance

instance (c : NormalizedCoordinates) : Decidable c.schemaValid := by
  unfold NormalizedCoordinates.schemaValid; infer_instance

instance (c : Coordinates) : Decidable c.schemaValid := by
  cases c <;> (unfold Coordinates.schemaValid; infer_instance)

/-- Bounds actually guaranteed by `clampToImageBounds`: `x` and `y` land in
the closed intervals `[0, width]` / `[0, height]`, width and height are at
least 1, the rectangle fits in the image whenever `x < width` and
`y < height`, and in the degenerate boundary case it overshoots by at
most one pixel. -/
theorem clampToImageBounds_bounds (c : PixelCoordinates) (d : ImageDimensions)
    (hW : 1 ≤ d.width) (hH : 1 ≤ d.height) :
    0 ≤ (clampToImageBounds c d).x ∧ (clampToImageBounds c d).x ≤ d.width ∧
    0 ≤ (clampToImageBounds c d).y ∧ (clampToImageBounds c d).y ≤ d.height ∧
    1 ≤ (clampToImageBounds c d).width ∧ 1 ≤ (clampToImageBounds c d).height ∧
    (clampToImageBounds c d).x + (clampToImageBounds c d).width ≤ d.width + 1 ∧
    (clampToImageBounds c d).y + (clampToImageBounds c d).height ≤ d.height + 1 ∧
    ((clampToImageBounds c d).x < d.width →
      (clampToImageBounds c d).x + (clampToImageBounds c d).width ≤ d.width) ∧
    ((clampToImageBounds c d).y < d.height →
      (clampToImageBounds c d).y + (clampToImageBounds c d).height ≤ d.height) := by
  simp only [clampToImageBounds]
  omega

/-- C1 (amended): for every coordinate input and image dimensions with
`width ≥ 1`, `height ≥ 1`, the rectangle returned by
`processCoordinates` satisfies `0 ≤ x ≤ width`, `0 ≤ y ≤ height`
(closed intervals — the code clamps with `Math.min(coords.x, width)`,
not `width - 1`), `width ≥ 1`, `height ≥ 1`,
`x + width ≤ image width + 1`, `y + height ≤ image height + 1`, and the
claimed containment `x + width ≤ image width` (resp. height) holds
whenever `x < image width` (resp. `y < image height`). -/
theorem C1_processCoordinates_bounds (c : Coordinates) (d : ImageDimensions)
    (hW : 1 ≤ d.width) (hH : 1 ≤ d.height) :
    0 ≤ (processCoordinates c d).x ∧ (processCoordinates c d).x ≤ d.width ∧
    0 ≤ (processCoordinates c d).y ∧ (processCoordinates c d).y ≤ d.height ∧
    1 ≤ (processCoordinates c d).width ∧ 1 ≤ (processCoordinates c d).height ∧
    (processCoordinates c d).x + (processCoordinates c d).width ≤ d.width + 1 ∧
    (processCoordinates c d).y + (processCoordinates c d).height ≤ d.height + 1 ∧
    ((processCoordinates c d).x < d.width →
      (processCoordinates c d).x + (processCoordinates c d).width ≤ d.width) ∧
    ((processCoordinates c d).y < d.height →
      (processCoordinates c d).y + (processCoordinates c d).height ≤ d.height) :=
  clampToImageBounds_bounds (toPixelCoordinates c d) d hW hH

/-- Witness for C1 at Scenario A of the spec: a 400×300 image with pixel
region `{x:350, y:250, width:100, height:100}` resolves to
`{x:350, y:250, width:50, height:50}`, and the bounds of
`C1_processCoordinates_bounds` hold there. -/
theorem C1_processCoordinates_bounds_witness :
    processCoordinates (.pixel ⟨350, 250, 100, 100⟩) ⟨400, 300⟩ = ⟨350, 250, 50, 50⟩ ∧
    (0 ≤ (processCoordinates (.pixel ⟨350, 250, 100, 100⟩) ⟨400, 300⟩).x ∧
      (processCoordinates (.pixel ⟨350, 250, 100, 100⟩) ⟨400, 300⟩).x ≤ (400 : Int) ∧
      0 ≤ (processCoordinates (.pixel ⟨350, 250, 100, 100⟩) ⟨400, 300⟩).y ∧
      (processCoordinates (.pixel ⟨350, 250, 100, 100⟩) ⟨400, 300⟩).y ≤ (300 : Int) ∧
      1 ≤ (processCoordinates (.pixel ⟨350, 250, 100, 100⟩) ⟨400, 300⟩).width ∧
      1 ≤ (processCoordinates (.pixel ⟨350, 250, 100, 100⟩) ⟨400, 300⟩).height ∧
      (processCoordinates (.pixel ⟨350, 250, 100, 100⟩) ⟨400, 300⟩).x +
        (processCoordinates (.pixel ⟨350, 250, 100, 100⟩) ⟨400, 300⟩).width ≤ (400 : Int) + 1 ∧
      (processCoordinates (.pixel ⟨350, 250, 100, 100⟩) ⟨400, 300⟩).y +
        (processCoordinates (.pixel ⟨350, 250, 100, 100⟩) ⟨400, 300⟩).height ≤ (300 : Int) + 1 ∧
      ((processCoordinates (.pixel ⟨350, 250, 100, 100⟩) ⟨400, 300⟩).x < (400 : Int) →
        (processCoordinates (.pixel ⟨350, 250, 100, 100⟩) ⟨400, 300⟩).x +
          (processCoordinates (.pixel ⟨350, 250, 100, 100⟩) ⟨400, 300⟩).width ≤ (400 : Int)) ∧
      ((processCoordinates (.pixel ⟨350, 250, 100, 100⟩) ⟨400, 300⟩).y < (300 : Int) →
        (processCoordinates (.pixel ⟨350, 250, 100, 100⟩) ⟨400, 300⟩).y +
          (processCoordinates (.pixel ⟨350, 250, 100, 100⟩) ⟨400, 300⟩).height ≤ (300 : Int))) :=
  ⟨by decide,
   C1_processCoordinates_bounds (.pixel ⟨350, 250, 100, 100⟩) ⟨400, 300⟩
     (by decide) (by decide)⟩

/-- Counterexample to C1 as stated: the schema-valid pixel input
`{x:400, y:0, width:10, height:10}` against a 400×300 image resolves to
`{x:400, y:0, width:1, height:10}`: the resolved `x` is not `< 400` and
`x + width = 401 > 400`, because the code clamps `x` into `[0, width]`
(closed), not `[0, width)`. -/
theorem C1_counterexample :
    Coordinates.schemaValid (.pixel ⟨400, 0, 10, 10⟩) ∧
    (1 : Int) ≤ 400 ∧ (1 : Int) ≤ 300 ∧
    processCoordinates (.pixel ⟨400, 0, 10, 10⟩) ⟨400, 300⟩ = ⟨400, 0, 1, 10⟩ ∧
    ¬((processCoordinates (.pixel ⟨400, 0, 10, 10⟩) ⟨400, 300⟩).x < 400) ∧
    ¬((processCoordinates (.pixel ⟨400, 0, 10, 10⟩) ⟨400, 300⟩).x +
        (processCoordinates (.pixel ⟨400, 0, 10, 10⟩) ⟨400, 300⟩).width ≤ 400) := by
  decide

/-- C7 (amended): the coordinate resolver is total and never reports an
error: there is no `InvalidRegion` error in the code, and after
clamping the resolved width and height are always `≥ 1` (the clamp
applies a floor of 1), for every input including degenerate
unit-interval input such as `x_norm = 1`. -/
theorem C7_processCoordinates_never_fails (c : Coordinates) (d : ImageDimensions) :
    1 ≤ (processCoordinates c d).width ∧ 1 ≤ (processCoordinates c d).height := by
  cases c <;>
    (simp only [processCoordinates, toPixelCoordinates, clampToImageBounds]; omega)

/-- Counterexample to C7 as stated: on the degenerate unit-interval input
`x_norm = 1` (with `y_norm = 0`, `w_norm = h_norm = 1/2`) against a
100×100 image, the resolver does not fail with `InvalidRegion`; it
returns the rectangle `{x:100, y:0, width:1, height:50}` (with
width and height `≥ 1`, never `≤ 0`). -/
theorem C7_counterexample :
    processCoordinates (.normalized ⟨1, 0, 1/2, 1/2⟩) ⟨100, 100⟩ = ⟨100, 0, 1, 50⟩ ∧
    1 ≤ (processCoordinates (.normalized ⟨1, 0, 1/2, 1/2⟩) ⟨100, 100⟩).width ∧
    1 ≤ (processCoordinates (.normalized ⟨1, 0, 1/2, 1/2⟩) ⟨100, 100⟩).height := by
  have h : processCoordinates (.normalized ⟨1, 0, 1/2, 1/2⟩) ⟨100, 100⟩ =
      ⟨100, 0, 1, 50⟩ := by
    simp only [processCoordinates, toPixelCoordinates, normalizedToPixel,
      clampToImageBounds, jsRound]
    norm_num
  rw [h]
  exact ⟨rfl, by decide, by decide⟩

/-- C8: the coordinate resolver is idempotent on in-bounds pixel input:
a pixel rectangle with `x ≥ 0`, `y ≥ 0`, `width ≥ 1`, `height ≥ 1`,
`x + width ≤ image width` and `y + height ≤ image height` is returned
unchanged by `processCoordinates`. -/
theorem C8_processCoordinates_idempotent (c : PixelCoordinates) (d : ImageDimensions)
    (hx : 0 ≤ c.x) (hy : 0 ≤ c.y) (hw : 1 ≤ c.width) (hh : 1 ≤ c.height)
    (hxw : c.x + c.width ≤ d.width) (hyh : c.y + c.height ≤ d.height) :
    processCoordinates (.pixel c) d = c := by
  cases c
  simp only [processCoordinates, toPixelCoordinates, clampToImageBounds,
    PixelCoordinates.mk.injEq] at *
  omega

/-- Witness for C8: the in-bounds rectangle `{x:10, y:20, width:30, height:40}`
in a 100×100 image is returned unchanged. -/
theorem C8_processCoordinates_idempotent_witness :
    processCoordinates (.pixel ⟨10, 20, 30, 40⟩) ⟨100, 100⟩ = ⟨10, 20, 30, 40⟩ :=
  C8_processCoordinates_idempotent ⟨10, 20, 30, 40⟩ ⟨100, 100⟩
    (by decide) (by decide) (by decide) (by decide) (by decide) (by decide)

/-! ### Request data model (schemas.ts / dtos.ts) -/

/-- Size codes `S | M | L` shared by the blur and pixelate schemas. -/
inductive SizeCode where
  | S
  | M
  | L
deriving DecidableEq, Repr

/-- `BLUR_SIZE_MAP` of schemas.ts. -/
def BLUR_SIZE_MAP : SizeCode → Int
  | .S => 3
  | .M => 6
  | .L => 12

/-- `PIXELATE_SIZE_MAP` of schemas.ts. -/
def PIXELATE_SIZE_MAP : SizeCode → Int
  | .S => 6
  | .M => 12
  | .L => 24

/-- The `operation` discriminated union of `regionSchema`. -/
inductive RedactionOperation where
  | blur (size : SizeCode)
  | pixelate (size : SizeCode)
  | fill (color : String)
deriving DecidableEq, Repr

/-- `regionSchema`: coordinates (either representation) plus one operation. -/
structure Region where
  coordinates : Coordinates
  operation : RedactionOperation
deriving DecidableEq, Repr

/-- `s3ObjectSchema`: bucket and key. -/
structure S3Object where
  bucket : String
  key : String
deriving DecidableEq, Repr

inductive ImageFormat where
  | webp
  | jpeg
deriving DecidableEq, Repr

/-- The `output` field of `s3RedactionRequestSchema`: an S3 object
reference extended with format and optional quality. -/
structure S3OutputObject where
  bucket : String
  key : String
  format : ImageFormat
  quality : Option Int
deriving DecidableEq, Repr

/-- `s3RedactionRequestSchema` (also the batch item schema). -/
structure S3RedactionRequest where
  input : S3Object
  output : S3OutputObject
  regions : List Region
  idempotency_key : Option String
deriving DecidableEq, Repr

/-- `s3RedactionResponseSchema` / the responses built by the controllers. -/
structure S3RedactionResponse where
  ok : Bool
  output : Option S3OutputObject
  processing_time_ms : Nat
  etag : Option String
deriving DecidableEq, Repr

/-! ### Job store (modules/batch/jobStore.ts)

Jobs and job items, and the item state transitions.  Random ids and
`Date` timestamps are not modelled at the job level (items are addressed
by index, which is exactly how the orchestrator derives item ids:
`jobId-index`); the store-level map with creation timestamps is modelled
separately below for the eviction policy. -/

/-- The shared status union `pending | processing | completed | failed`. -/
inductive JobState where
  | pending
  | processing
  | completed
  | failed
deriving DecidableEq, Repr

/-- A status is terminal iff it is `completed` or `failed`. -/
def JobState.isTerminal : JobState → Bool
  | .completed => true
  | .failed => true
  | _ => false

/-- `JobItem` of dtos.ts (timestamps omitted). -/
structure JobItem where
  request : S3RedactionRequest
  status : JobState
  result : Option S3RedactionResponse := none
  error : Option String := none
deriving DecidableEq, Repr

structure JobProgress where
  total : Nat
  completed : Nat
  failed : Nat
deriving DecidableEq, Repr

/-- `Job` of dtos.ts (id, webhook URL and timestamps omitted). -/
structure Job where
  status : JobState
  items : List JobItem
  progress : JobProgress
deriving DecidableEq, Repr

/-- `createJob` of jobStore.ts: one pending item per request,
progress `{total := n, completed := 0, failed := 0}`, status `pending`. -/
def createJob (requests : List S3RedactionRequest) : Job where
  status := .pending
  items := requests.map (fun r => { request := r, status := .pending })
  progress := { total := requests.length, completed := 0, failed := 0 }

/-- `job.items.filter(item => item.status === s).length`, the counting
pattern of `updateJobProgress`. -/
def countStatus (items : List JobItem) (s : JobState) : Nat :=
  (items.filter (fun it => it.status == s)).length

/-- `updateJobProgress` of jobStore.ts: recompute `completed`/`failed`
from the items, then set the overall status (terminal when
`completed + failed === total`, else promote `pending` to `processing`). -/
def updateJobProgress (job : Job) : Job :=
  let completed := countStatus job.items .completed
  let failed := countStatus job.items .failed
  let withProgress : Job :=
    { job with progress :=
        { job.progress with completed := completed, failed := failed } }
  if completed + failed = withProgress.progress.total then
    { withProgress with status := if failed = 0 then .completed else .failed }
  else if withProgress.status = .pending then
    { withProgress with status := .processing }
  else
    withProgress

/-- `updateJobItem` of jobStore.ts: merge an update into the item at the
given index, then recompute progress.  The three callers below pass the
specific field updates from the source. -/
def updateJobItem (job : Job) (idx : Nat) (f : JobItem → JobItem) : Job :=
  updateJobProgress { job with items := job.items.modify f idx }

/-- `startJobItem` of jobStore.ts. -/
def startJobItem (job : Job) (idx : Nat) : Job :=
  updateJobItem job idx (fun it => { it with status := .processing })

/-- `completeJobItem` of jobStore.ts. -/
def completeJobItem (job : Job) (idx : Nat) (result : S3RedactionResponse) : Job :=
  updateJobItem job idx (fun it => { it with status := .completed, result := some result })

/-- `failJobItem` of jobStore.ts. -/
def failJobItem (job : Job) (idx : Nat) (error : String) : Job :=
  updateJobItem job idx (fun it => { it with status := .failed, error := some error })

/-- Job states reachable in the running service: a job is created from a
(nonempty, schema-bounded) batch of requests, and the orchestrator then
drives each item through `pending → processing → completed/failed`
(`startJobItem` on a pending item, `completeJobItem`/`failJobItem` on a
processing item) — the monotonic item lifecycle of the spec. -/
inductive JobReachable : Job → Prop where
  | created (requests : List S3RedactionRequest) (hne : requests ≠ []) :
      JobReachable (createJob requests)
  | start {job : Job} {idx : Nat} {it : JobItem} (h : JobReachable job)
      (hit : job.items[idx]? = some it) (hst : it.status = .pending) :
      JobReachable (startJobItem job idx)
  | complete {job : Job} {idx : Nat} {it : JobItem} {r : S3RedactionResponse}
      (h : JobReachable job)
      (hit : job.items[idx]? = some it) (hst : it.status = .processing) :
      JobReachable (completeJobItem job idx r)
  | fail {job : Job} {idx : Nat} {it : JobItem} {e : String} (h : JobReachable job)
      (hit : job.items[idx]? = some it) (hst : it.status = .processing) :
      JobReachable (failJobItem job idx e)

/-- Every item of the list is in a terminal state. -/
def allTerminal (items : List JobItem) : Prop :=
  ∀ it ∈ items, it.status.isTerminal = true

/-- The job-store invariant maintained by the item transitions. -/
def JobInv (job : Job) : Prop :=
  job.progress.total = job.items.length ∧
  job.progress.completed = countStatus job.items .completed ∧
  job.progress.failed = countStatus job.items .failed ∧
  job.items ≠ [] ∧
  (job.status = .completed ↔ allTerminal job.items ∧ countStatus job.items .failed = 0) ∧
  (job.status = .failed ↔ allTerminal job.items ∧ 0 < countStatus job.items .failed)

@[simp] lemma JobState.isTerminal_pending : JobState.pending.isTerminal = false := rfl

@[simp] lemma JobState.isTerminal_processing : JobState.processing.isTerminal = false := rfl

@[simp] lemma JobState.isTerminal_completed : JobState.completed.isTerminal = true := rfl

@[simp] lemma JobState.isTerminal_failed : JobState.failed.isTerminal = true := rfl

lemma countStatus_eq_countP (l : List JobItem) (s : JobState) :
    countStatus l s = l.countP (fun it => it.status == s) :=
  (List.countP_eq_length_filter _ _).symm

lemma countStatus_add_terminal (l : List JobItem) :
    countStatus l .completed + countStatus l .failed
      = l.countP (fun it => it.status.isTerminal) := by
  induction l with
  | nil => simp [countStatus]
  | cons a l ih =>
    rw [countStatus_eq_countP, countStatus_eq_countP] at ih ⊢
    rw [List.countP_cons, List.countP_cons, List.countP_cons]
    cases h : a.status <;> simp [h, ih] <;> omega

lemma countStatus_le_length (l : List JobItem) (s : JobState) :
    countStatus l s ≤ l.length := by
  rw [countStatus_eq_countP]; exact List.countP_le_length _

lemma allTerminal_iff (items : List JobItem) :
    allTerminal items ↔
      countStatus items .completed + countStatus items .failed = items.length := by
  rw [countStatus_add_terminal, allTerminal]
  exact List.countP_eq_length.symm

lemma modify_of_getElem? {l : List JobItem} {i : Nat} {it : JobItem}
    (hi : l[i]? = some it) (f : JobItem → JobItem) :
    l.modify f i = l.set i (f it) := by
  rw [List.modify_eq_set_get?, List.get?_eq_getElem?, hi]
  rfl

lemma countStatus_set {l : List JobItem} {i : Nat} {it : JobItem} (a : JobItem)
    (s : JobState) (hi : l[i]? = some it) :
    countStatus (l.set i a) s + (if it.status = s then 1 else 0)
      = countStatus l s + (if a.status = s then 1 else 0) := by
  induction l generalizing i with
  | nil => simp at hi
  | cons b l ih =>
    cases i with
    | zero =>
      simp only [List.getElem?_cons_zero, Option.some.injEq] at hi
      rcases hi with rfl
      simp only [List.set_cons_zero, countStatus_eq_countP, List.countP_cons]
      by_cases h1 : b.status = s <;> by_cases h2 : a.status = s <;>
        simp [h1, h2]
    | succ n =>
      simp only [List.getElem?_cons_succ] at hi
      have := ih hi
      simp only [List.set_cons_succ, countStatus_eq_countP, List.countP_cons] at this ⊢
      by_cases h1 : b.status = s <;> simp [h1] at this ⊢ <;> omega

lemma status_not_terminal_of_item {job : Job} (inv : JobInv job) {idx : Nat}
    {it : JobItem} (hit : job.items[idx]? = some it)
    (hnt : it.status.isTerminal = false) :
    job.status ≠ .completed ∧ job.status ≠ .failed := by
  have hmem : it ∈ job.items := List.getElem?_mem hit
  obtain ⟨-, -, -, -, hic, hif⟩ := inv
  constructor
  · intro h
    have hterm := (hic.mp h).1 it hmem
    rw [hnt] at hterm
    cases hterm
  · intro h
    have hterm := (hif.mp h).1 it hmem
    rw [hnt] at hterm
    cases hterm

lemma updateJobProgress_eq (job : Job) :
    updateJobProgress job =
      { status :=
          if countStatus job.items .completed + countStatus job.items .failed
              = job.progress.total then
            (if countStatus job.items .failed = 0 then .completed else .failed)
          else if job.status = .pending then .processing
          else job.status
        items := job.items
        progress :=
          { total := job.progress.total
            completed := countStatus job.items .completed
            failed := countStatus job.items .failed } } := by
  unfold updateJobProgress
  dsimp only
  split_ifs <;> rfl

lemma updateJobProgress_inv (job : Job)
    (hne : job.items ≠ [])
    (htotal : job.progress.total = job.items.length)
    (hc : job.status ≠ .completed) (hf : job.status ≠ .failed) :
    JobInv (updateJobProgress job) := by
  have hCF := allTerminal_iff job.items
  rw [JobInv, updateJobProgress_eq]
  dsimp only
  refine ⟨htotal, rfl, rfl, hne, ?_, ?_⟩
  · by_cases h1 : countStatus job.items .completed + countStatus job.items .failed
        = job.progress.total
    · rw [if_pos h1]
      by_cases h2 : countStatus job.items .failed = 0
      · rw [if_pos h2]
        exact iff_of_true rfl ⟨hCF.mpr (by omega), h2⟩
      · rw [if_neg h2]
        exact iff_of_false (by decide) (fun h => h2 h.2)
    · rw [if_neg h1]
      by_cases h3 : job.status = .pending
      · rw [if_pos h3]
        exact iff_of_false (by decide)
          (fun h => h1 (by rw [htotal]; exact hCF.mp h.1))
      · rw [if_neg h3]
        exact iff_of_false hc (fun h => h1 (by rw [htotal]; exact hCF.mp h.1))
  · by_cases h1 : countStatus job.items .completed + countStatus job.items .failed
        = job.progress.total
    · rw [if_pos h1]
      by_cases h2 : countStatus job.items .failed = 0
      · rw [if_pos h2]
        exact iff_of_false (by decide) (fun h => absurd h.2 (by omega))
      · rw [if_neg h2]
        exact iff_of_true rfl ⟨hCF.mpr (by omega), by omega⟩
    · rw [if_neg h1]
      by_cases h3 : job.status = .pending
      · rw [if_pos h3]
        exact iff_of_false (by decide)
          (fun h => h1 (by rw [htotal]; exact hCF.mp h.1))
      · rw [if_neg h3]
        exact iff_of_false hf (fun h => h1 (by rw [htotal]; exact hCF.mp h.1))

lemma updateJobItem_inv {job : Job} (inv : JobInv job) {idx : Nat} {it : JobItem}
    (hit : job.items[idx]? = some it) (hnt : it.status.isTerminal = false)
    (f : JobItem → JobItem) :
    JobInv (updateJobItem job idx f) := by
  have hstat := status_not_terminal_of_item inv hit hnt
  obtain ⟨htotal, -, -, hne, -, -⟩ := inv
  rw [updateJobItem, modify_of_getElem? hit]
  apply updateJobProgress_inv
  · show job.items.set idx (f it) ≠ []
    simp [List.set_eq_nil_iff, hne]
  · show job.progress.total = (job.items.set idx (f it)).length
    simpa [List.length_set] using htotal
  · exact hstat.1
  · exact hstat.2

lemma jobReachable_inv {job : Job} (h : JobReachable job) : JobInv job := by
  induction h with
  | created requests hne =>
    have hpend : ∀ it ∈ (createJob requests).items, it.status = JobState.pending := by
      intro it hmem
      simp only [createJob, List.mem_map] at hmem
      obtain ⟨r, -, rfl⟩ := hmem
      rfl
    have hc0 : countStatus (createJob requests).items .completed = 0 := by
      rw [countStatus_eq_countP, List.countP_eq_zero]
      intro a ha
      simp [hpend a ha]
    have hf0 : countStatus (createJob requests).items .failed = 0 := by
      rw [countStatus_eq_countP, List.countP_eq_zero]
      intro a ha
      simp [hpend a ha]
    have hnotAll : ¬ allTerminal (createJob requests).items := by
      intro hall
      cases requests with
      | nil => exact hne rfl
      | cons r rs =>
        have hmem : ({ request := r, status := .pending } : JobItem)
            ∈ (createJob (r :: rs)).items := by
          simp [createJob]
        have := hall _ hmem
        simp at this
    exact ⟨(List.length_map _ _).symm, hc0.symm, hf0.symm,
      by simp [createJob, hne],
      iff_of_false (by simp [createJob]) (fun h => hnotAll h.1),
      iff_of_false (by simp [createJob]) (fun h => hnotAll h.1)⟩
  | start h hit hst ih => exact updateJobItem_inv ih hit (by rw [hst]; rfl) _
  | complete h hit hst ih => exact updateJobItem_inv ih hit (by rw [hst]; rfl) _
  | fail h hit hst ih => exact updateJobItem_inv ih hit (by rw [hst]; rfl) _

lemma countP_terminal_add_nonterminal (l : List JobItem) :
    l.countP (fun it => it.status.isTerminal)
      + (l.filter (fun it => !it.status.isTerminal)).length = l.length := by
  induction l with
  | nil => simp
  | cons a l ih =>
    cases h : a.status.isTerminal <;>
      simp [List.countP_cons, List.filter_cons, h] <;> omega

/-- C2: in every job state reachable through the job store's item
transitions (`startJobItem`, `completeJobItem`, `failJobItem`, each
applied to an item in the appropriate non-terminal state, starting from
`createJob` on a nonempty request list), the progress counters satisfy
`completed + failed ≤ total` and `completed + failed + pending = total`
(where `pending` counts the non-terminal items); the job status is
`completed` iff every item is terminal and `failed = 0`, and `failed`
iff every item is terminal and `failed > 0`. -/
theorem C2_progress_invariant (job : Job) (h : JobReachable job) :
    job.progress.completed + job.progress.failed ≤ job.progress.total ∧
    job.progress.completed + job.progress.failed
        + (job.items.filter (fun it => !it.status.isTerminal)).length
      = job.progress.total ∧
    (job.status = .completed ↔ allTerminal job.items ∧ job.progress.failed = 0) ∧
    (job.status = .failed ↔ allTerminal job.items ∧ 0 < job.progress.failed) := by
  obtain ⟨htotal, hcc, hff, -, hic, hif⟩ := jobReachable_inv h
  have hterm := countStatus_add_terminal job.items
  have hsplit := countP_terminal_add_nonterminal job.items
  have hc := countStatus_le_length job.items .completed
  refine ⟨?_, ?_, ?_, ?_⟩
  · omega
  · omega
  · rw [hff]; exact hic
  · rw [hff]; exact hif

/-- Witness for C2: the invariant evaluated on the concrete reachable
state obtained by creating a single-item job and completing its item. -/
theorem C2_progress_invariant_witness :
    (let req : S3RedactionRequest :=
      { input := { bucket := "in", key := "a.png" }
        output := { bucket := "out", key := "a.webp", format := .webp, quality := none }
        regions := [{ coordinates := .pixel ⟨0, 0, 1, 1⟩, operation := .fill "#112233" }]
        idempotency_key := none }
    let job := completeJobItem (startJobItem (createJob [req]) 0) 0
      { ok := true, output := none, processing_time_ms := 5, etag := none }
    job.progress.completed + job.progress.failed ≤ job.progress.total ∧
    job.progress.completed + job.progress.failed
        + (job.items.filter (fun it => !it.status.isTerminal)).length
      = job.progress.total ∧
    (job.status = .completed ↔ allTerminal job.items ∧ job.progress.failed = 0) ∧
    (job.status = .failed ↔ allTerminal job.items ∧ 0 < job.progress.failed)) :=
  C2_progress_invariant _
    (JobReachable.complete
      (JobReachable.start (JobReachable.created _ (by simp)) rfl rfl)
      rfl rfl)

/-! ### Batch orchestrator (modules/batch/controller.ts, `processBatchJob`)

The per-item storage and pipeline calls are external collaborators; they
are modelled as an environment of fallible functions, where an
`Except.error` carries the normalized error message
(`normalizeError(error).message` — `normalizeError` preserves the
message of every thrown `Error`). -/

/-- Abstract image bytes. -/
abbrev ImageBuffer := List Nat

/-- The result of a successful pipeline run (`ProcessedImage` of dtos.ts). -/
structure ProcessedImage where
  buffer : ImageBuffer
  format : ImageFormat
  etag : String
  processingTimeMs : Nat
  width : Int
  height : Int
deriving DecidableEq, Repr

/-- The external collaborators used per batch item. -/
structure BatchEnv where
  getObject : S3Object → Except String ImageBuffer
  redactImage : ImageBuffer → List Region → ImageFormat → Option Int →
    Except String ProcessedImage
  putObject : S3OutputObject → ImageBuffer → Except String Unit

/-- The body of the per-item `try` block of `processBatchJob`: fetch the
source bytes, run the redaction pipeline, upload the result, and build
the `completeJobItem` response. -/
def processBatchItem (env : BatchEnv) (request : S3RedactionRequest) :
    Except String S3RedactionResponse := do
  let inputBuffer ← env.getObject request.input
  let processed ← env.redactImage inputBuffer request.regions
    request.output.format request.output.quality
  let _ ← env.putObject request.output processed.buffer
  pure { ok := true, output := some request.output,
         processing_time_ms := processed.processingTimeMs,
         etag := some processed.etag }

/-- One iteration of the `for (const item of job.items)` loop of
`processBatchJob`: `startJobItem`, then `completeJobItem` on success or
`failJobItem` with the error message on failure (the `catch` branch). -/
def batchStep (env : BatchEnv) (j : Job) (p : Nat × JobItem) : Job :=
  let started := startJobItem j p.1
  match processBatchItem env p.2.request with
  | .ok r => completeJobItem started p.1 r
  | .error e => failJobItem started p.1 e

/-- `processBatchJob` of controller.ts (without the final webhook
dispatch, which is modelled separately): process the items of the job
sequentially, items being addressed by their index
(item ids are `jobId-index` in the source). -/
def processBatchJob (env : BatchEnv) (job : Job) : Job :=
  job.items.enum.foldl (batchStep env) job

/-- A freshly created item (the shape produced by `createJob`). -/
def pendingItem (r : S3RedactionRequest) : JobItem :=
  { request := r, status := .pending }

/-- The terminal item produced for one request by one loop iteration:
`completed` with the response when its processing succeeds, `failed`
with the error message otherwise. -/
def itemOutcome (env : BatchEnv) (r : S3RedactionRequest) : JobItem :=
  match processBatchItem env r with
  | .ok resp => { request := r, status := .completed, result := some resp, error := none }
  | .error e => { request := r, status := .failed, result := none, error := some e }

/-- The job state after the batch loop finishes. -/
def batchFinalJob (env : BatchEnv) (reqs : List S3RedactionRequest) : Job where
  status :=
    if reqs = [] then .pending
    else if countStatus (reqs.map (itemOutcome env)) .failed = 0 then .completed
    else .failed
  items := reqs.map (itemOutcome env)
  progress :=
    { total := (reqs : List S3RedactionRequest).length
      completed := countStatus (reqs.map (itemOutcome env)) .completed
      failed := countStatus (reqs.map (itemOutcome env)) .failed }

lemma itemOutcome_terminal (env : BatchEnv) (r : S3RedactionRequest) :
    (itemOutcome env r).status.isTerminal = true := by
  unfold itemOutcome
  cases processBatchItem env r <;> rfl

lemma countStatus_append (A B : List JobItem) (s : JobState) :
    countStatus (A ++ B) s = countStatus A s + countStatus B s := by
  simp [countStatus_eq_countP, List.countP_append]

lemma countStatus_cons (a : JobItem) (l : List JobItem) (s : JobState) :
    countStatus (a :: l) s = countStatus l s + (if a.status = s then 1 else 0) := by
  by_cases h : a.status = s <;>
    simp [countStatus_eq_countP, List.countP_cons, h]

lemma countStatus_pending_map (rs : List S3RedactionRequest) (s : JobState)
    (hs : s ≠ .pending) :
    countStatus (rs.map pendingItem) s = 0 := by
  rw [countStatus_eq_countP, List.countP_eq_zero]
  intro a ha
  obtain ⟨r, -, rfl⟩ := List.mem_map.mp ha
  simp [pendingItem]
  exact fun h => hs h.symm

lemma countStatus_outcomes (env : BatchEnv) (rs : List S3RedactionRequest) :
    countStatus (rs.map (itemOutcome env)) .completed
      + countStatus (rs.map (itemOutcome env)) .failed = rs.length := by
  have hall : (rs.map (itemOutcome env)).countP (fun it => it.status.isTerminal)
      = (rs.map (itemOutcome env)).length := by
    rw [List.countP_eq_length]
    intro a ha
    obtain ⟨r, -, rfl⟩ := List.mem_map.mp ha
    exact itemOutcome_terminal env r
  rw [countStatus_add_terminal, hall, List.length_map]

lemma updateJobItem_boundary {j : Job} {A P : List JobItem} {b : JobItem}
    (hitems : j.items = A ++ b :: P) (f : JobItem → JobItem) :
    updateJobItem j A.length f = updateJobProgress { j with items := A ++ f b :: P } := by
  have hb : j.items[A.length]? = some b := by
    rw [hitems, List.getElem?_append_right (Nat.le_refl _)]
    simp
  rw [updateJobItem, modify_of_getElem? hb, hitems,
    List.set_append_right _ _ (Nat.le_refl _)]
  simp

@[simp] lemma pendingItem_request (r : S3RedactionRequest) : (pendingItem r).request = r := rfl

@[simp] lemma pendingItem_status (r : S3RedactionRequest) :
    (pendingItem r).status = JobState.pending := rfl

@[simp] lemma pendingItem_result (r : S3RedactionRequest) : (pendingItem r).result = none := rfl

@[simp] lemma pendingItem_error (r : S3RedactionRequest) : (pendingItem r).error = none := rfl

lemma updateJobItem_literal (st : JobState) (A P : List JobItem) (b : JobItem)
    (pr : JobProgress) (f : JobItem → JobItem) :
    updateJobItem { status := st, items := A ++ b :: P, progress := pr } A.length f
      = updateJobProgress { status := st, items := A ++ f b :: P, progress := pr } :=
  updateJobItem_boundary rfl f

lemma batchStep_boundary (env : BatchEnv) (done rs : List S3RedactionRequest)
    (r : S3RedactionRequest) (j : Job)
    (hitems : j.items = done.map (itemOutcome env) ++ pendingItem r :: rs.map pendingItem)
    (htotal : j.progress.total = done.length + (rs.length + 1))
    (hstatus : j.status = .pending ∨ j.status = .processing) :
    batchStep env j (done.length, pendingItem r) =
      { status :=
          if rs = [] then
            (if countStatus ((done ++ [r]).map (itemOutcome env)) .failed = 0
             then .completed else .failed)
          else .processing
        items := (done ++ [r]).map (itemOutcome env) ++ rs.map pendingItem
        progress :=
          { total := j.progress.total
            completed := countStatus ((done ++ [r]).map (itemOutcome env)) .completed
            failed := countStatus ((done ++ [r]).map (itemOutcome env)) .failed } } := by
  have hA : (done.map (itemOutcome env)).length = done.length := List.length_map _ _
  have hCF := countStatus_outcomes env done
  have hCF2 := countStatus_outcomes env (done ++ [r])
  simp only [List.length_append, List.length_cons, List.length_nil] at hCF2
  have hrsLen : ¬ rs = [] → rs.length ≠ 0 :=
    fun hne h0 => hne (List.length_eq_zero.mp h0)
  -- the `startJobItem` step
  have hstart : startJobItem j done.length =
      { status := JobState.processing
        items := done.map (itemOutcome env)
          ++ ({ request := r, status := .processing } : JobItem) :: rs.map pendingItem
        progress :=
          { total := j.progress.total
            completed := countStatus (done.map (itemOutcome env)) .completed
            failed := countStatus (done.map (itemOutcome env)) .failed } } := by
    rw [startJobItem, ← hA, updateJobItem_boundary hitems, updateJobProgress_eq]
    dsimp only [pendingItem_request, pendingItem_result, pendingItem_error]
    have hcountMid : ∀ s : JobState, s ≠ .pending → s ≠ .processing →
        countStatus (done.map (itemOutcome env)
            ++ ({ request := r, status := .processing } : JobItem) :: rs.map pendingItem) s
          = countStatus (done.map (itemOutcome env)) s := by
      intro s hs hs2
      rw [countStatus_append, countStatus_cons, countStatus_pending_map rs s hs,
        if_neg (fun h => hs2 h.symm)]
      omega
    rw [hcountMid .completed (by decide) (by decide),
      hcountMid .failed (by decide) (by decide),
      if_neg (show ¬ (countStatus (done.map (itemOutcome env)) .completed
          + countStatus (done.map (itemOutcome env)) .failed = j.progress.total)
        by omega)]
    rcases hstatus with h | h <;> rw [h] <;> simp
  have hcountFin : ∀ s : JobState, s ≠ .pending →
      countStatus (done.map (itemOutcome env)
          ++ itemOutcome env r :: rs.map pendingItem) s
        = countStatus ((done ++ [r]).map (itemOutcome env)) s := by
    intro s hs
    rw [countStatus_append, countStatus_cons, countStatus_pending_map rs s hs,
      List.map_append, countStatus_append]
    simp [countStatus_eq_countP, List.countP_cons]
  have hitemsEq : done.map (itemOutcome env) ++ itemOutcome env r :: rs.map pendingItem
      = (done ++ [r]).map (itemOutcome env) ++ rs.map pendingItem := by
    rw [List.map_append, List.append_assoc]
    rfl
  rw [batchStep]
  dsimp only [pendingItem_request]
  rcases hpr : processBatchItem env r with e | resp
  all_goals dsimp only
  · -- failure: `failJobItem`
    have houtcome : itemOutcome env r =
        { request := r, status := .failed, result := none, error := some e } := by
      rw [itemOutcome, hpr]
    rw [failJobItem, hstart, ← hA, updateJobItem_literal, updateJobProgress_eq]
    dsimp only
    rw [← houtcome, hcountFin .completed (by decide), hcountFin .failed (by decide),
      hitemsEq]
    by_cases hrs : rs = []
    · subst hrs
      simp only [List.length_nil] at htotal
      rw [if_pos (by omega), if_pos rfl]
    · rw [if_neg (fun h => hrsLen hrs (by omega)), if_neg hrs,
        if_neg (by decide : ¬ (JobState.processing = JobState.pending))]
  · -- success: `completeJobItem`
    have houtcome : itemOutcome env r =
        { request := r, status := .completed, result := some resp, error := none } := by
      rw [itemOutcome, hpr]
    rw [completeJobItem, hstart, ← hA, updateJobItem_literal, updateJobProgress_eq]
    dsimp only
    rw [← houtcome, hcountFin .completed (by decide), hcountFin .failed (by decide),
      hitemsEq]
    by_cases hrs : rs = []
    · subst hrs
      simp only [List.length_nil] at htotal
      rw [if_pos (by omega), if_pos rfl]
    · rw [if_neg (fun h => hrsLen hrs (by omega)), if_neg hrs,
        if_neg (by decide : ¬ (JobState.processing = JobState.pending))]

lemma processBatch_go (env : BatchEnv) (rs : List S3RedactionRequest) :
    ∀ (done : List S3RedactionRequest) (j : Job),
    j.items = done.map (itemOutcome env) ++ rs.map pendingItem →
    j.progress = { total := done.length + rs.length
                   completed := countStatus (done.map (itemOutcome env)) .completed
                   failed := countStatus (done.map (itemOutcome env)) .failed } →
    j.status = (if done = [] then .pending
                else if rs = [] then
                  (if countStatus (done.map (itemOutcome env)) .failed = 0
                   then .completed else .failed)
                else .processing) →
    ((rs.map pendingItem).enumFrom done.length).foldl (batchStep env) j
      = batchFinalJob env (done ++ rs) := by
  induction rs with
  | nil =>
    intro done j hitems hprog hstatus
    obtain ⟨status, items, progress⟩ := j
    dsimp only at hitems hprog hstatus
    subst hitems hprog hstatus
    rw [List.map_nil, List.enumFrom_nil, List.foldl_nil, List.append_nil, batchFinalJob]
    by_cases hd : done = [] <;>
      simp [hd, List.length_nil, Nat.add_zero, List.append_nil]
  | cons r rs ih =>
    intro done j hitems hprog hstatus
    have htotal : j.progress.total = done.length + (rs.length + 1) := by
      rw [hprog]
      simp [List.length_cons]
    have hst2 : j.status = .pending ∨ j.status = .processing := by
      rw [hstatus]
      by_cases hd : done = []
      · rw [if_pos hd]; exact Or.inl rfl
      · rw [if_neg hd, if_neg (by simp : ¬ (r :: rs = []))]
        exact Or.inr rfl
    rw [List.map_cons, List.enumFrom_cons, List.foldl_cons,
      batchStep_boundary env done rs r j hitems htotal hst2]
    have hlen : done.length + 1 = (done ++ [r]).length := by
      simp
    have happ : done ++ r :: rs = (done ++ [r]) ++ rs := by
      rw [List.append_assoc]
      rfl
    rw [happ, hlen]
    apply ih (done ++ [r])
    · rfl
    · dsimp only
      rw [htotal]
      simp [List.length_append]
      omega
    · dsimp only
      rw [if_neg (by simp : ¬ (done ++ [r] = []))]

/-- C4: batch processing never aborts and isolates per-item failures:
for every storage/pipeline environment and request list, running
`processBatchJob` on the freshly created job drives every item to a
terminal state — item i ends `completed` with its response exactly when
its own processing succeeds, and `failed` with the error message when
any step of it fails — progress counts the outcomes and the job ends
`failed` iff some item failed, `completed` otherwise (for a nonempty
batch); the final state is exactly `batchFinalJob`. -/
theorem C4_batch_partial_failure (env : BatchEnv) (reqs : List S3RedactionRequest)
    (hne : reqs ≠ []) :
    processBatchJob env (createJob reqs) = batchFinalJob env reqs ∧
    allTerminal (processBatchJob env (createJob reqs)).items ∧
    ((processBatchJob env (createJob reqs)).status = .failed ↔
      0 < countStatus ((processBatchJob env (createJob reqs)).items) .failed) := by
  have hmain : processBatchJob env (createJob reqs) = batchFinalJob env reqs := by
    rw [processBatchJob]
    have := processBatch_go env reqs [] (createJob reqs) rfl
      (by simp [createJob, countStatus]) (by simp [createJob])
    simpa [List.enum] using this
  refine ⟨hmain, ?_, ?_⟩
  · rw [hmain, batchFinalJob]
    intro it hmem
    obtain ⟨r, -, rfl⟩ := List.mem_map.mp hmem
    exact itemOutcome_terminal env r
  · rw [hmain, batchFinalJob]
    dsimp only
    rw [if_neg hne]
    by_cases hf : countStatus (reqs.map (itemOutcome env)) .failed = 0
    · rw [if_pos hf]
      exact iff_of_false (by decide) (by omega)
    · rw [if_neg hf]
      exact iff_of_true rfl (by omega)

/-- The storage/pipeline environment of Scenario B: the source object of
key `k2` is missing (`getObject` fails with the `S3Service` not-found
message), everything else succeeds. -/
def scenarioEnv : BatchEnv where
  getObject := fun o =>
    if o.key = "k2" then .error ("Object not found: s3://" ++ o.bucket ++ "/" ++ o.key)
    else .ok [0, 1, 2]
  redactImage := fun buf _ _ _ =>
    .ok { buffer := buf, format := .webp, etag := "etag1", processingTimeMs := 4,
          width := 100, height := 100 }
  putObject := fun _ _ => .ok ()

/-- One Scenario B batch item reading from `inb/<k>`. -/
def scenarioRequest (k : String) : S3RedactionRequest where
  input := { bucket := "inb", key := k }
  output := { bucket := "outb", key := k ++ ".webp", format := .webp, quality := none }
  regions := [{ coordinates := .pixel ⟨0, 0, 10, 10⟩, operation := .blur .M }]
  idempotency_key := none

/-- Witness for C4, Scenario B of the spec: a batch of 3 items whose
second item's source key is missing ends with job status `failed`,
progress `{total := 3, completed := 2, failed := 1}`, item 2 `failed`
with the storage-not-found message, and items 1 and 3 `completed`. -/
theorem C4_batch_partial_failure_witness :
    (processBatchJob scenarioEnv
        (createJob [scenarioRequest "k1", scenarioRequest "k2", scenarioRequest "k3"])
      = batchFinalJob scenarioEnv
          [scenarioRequest "k1", scenarioRequest "k2", scenarioRequest "k3"] ∧
      allTerminal (processBatchJob scenarioEnv
        (createJob [scenarioRequest "k1", scenarioRequest "k2", scenarioRequest "k3"])).items ∧
      ((processBatchJob scenarioEnv
          (createJob [scenarioRequest "k1", scenarioRequest "k2", scenarioRequest "k3"])).status
            = .failed ↔
        0 < countStatus (processBatchJob scenarioEnv
          (createJob [scenarioRequest "k1", scenarioRequest "k2",
            scenarioRequest "k3"])).items .failed)) ∧
    (processBatchJob scenarioEnv
        (createJob [scenarioRequest "k1", scenarioRequest "k2", scenarioRequest "k3"])).status
      = .failed ∧
    (processBatchJob scenarioEnv
        (createJob [scenarioRequest "k1", scenarioRequest "k2", scenarioRequest "k3"])).progress
      = { total := 3, completed := 2, failed := 1 } ∧
    (processBatchJob scenarioEnv
        (createJob [scenarioRequest "k1", scenarioRequest "k2", scenarioRequest "k3"])).items.map
        (fun it => it.status) = [.completed, .failed, .completed] ∧
    (processBatchJob scenarioEnv
        (createJob [scenarioRequest "k1", scenarioRequest "k2", scenarioRequest "k3"])).items.map
        (fun it => it.error) = [none, some "Object not found: s3://inb/k2", none] :=
  ⟨C4_batch_partial_failure scenarioEnv _ (by simp),
    by decide, by decide, by decide, by decide⟩

/-! ### Webhook delivery with retry (controller.ts `sendWebhook`) -/

/-- Result of one `fetch` of the webhook URL: an HTTP status, or a
transport error (rejected promise). -/
inductive FetchOutcome where
  | status (code : Nat)
  | transportError (msg : String)
deriving DecidableEq, Repr

/-- `response.ok` of the Fetch API: status in `[200, 300)`.  A non-ok
response makes `sendWebhook` throw into its own catch block. -/
def FetchOutcome.delivered : FetchOutcome → Bool
  | .status code => 200 ≤ code && code < 300
  | .transportError _ => false

/-- `maxAttempts` of `sendWebhook`. -/
def maxAttempts : Nat := 3

/-- The `retryDelays` table of `sendWebhook` (milliseconds). -/
def retryDelays : List Nat := [1000, 5000, 10000]

/-- One trace event of `sendWebhook`: a delivery attempt (with its
outcome), or a backoff wait of the given number of milliseconds. -/
inductive WebhookEvent where
  | attempt (n : Nat) (outcome : FetchOutcome)
  | wait (ms : Nat)
deriving DecidableEq, Repr

/-- `sendWebhook` of controller.ts as a trace function: `respond n` is
the outcome of the fetch on attempt `n` (0-based).  On failure the
catch block retries while `attempt < maxAttempts - 1` after waiting
`retryDelays[attempt]`; when attempts are exhausted the failure is
dropped — the function returns normally in every case (nothing is
rethrown, so no failure ever propagates to `processBatchJob`). -/
def sendWebhook (respond : Nat → FetchOutcome) (attempt : Nat) : List WebhookEvent :=
  let outcome := respond attempt
  if outcome.delivered then [.attempt attempt outcome]
  else if attempt < maxAttempts - 1 then
    .attempt attempt outcome :: .wait (retryDelays.getD attempt 0) ::
      sendWebhook respond (attempt + 1)
  else [.attempt attempt outcome]
termination_by maxAttempts - attempt
decreasing_by simp [maxAttempts] at *; omega

/-- Number of delivery attempts in a trace. -/
def attemptCount (evs : List WebhookEvent) : Nat :=
  evs.countP (fun e => match e with | .attempt _ _ => true | .wait _ => false)

/-- The backoff waits of a trace, in order. -/
def waits (evs : List WebhookEvent) : List Nat :=
  evs.filterMap (fun e => match e with | .attempt _ _ => none | .wait ms => some ms)

lemma sendWebhook_trace (respond : Nat → FetchOutcome) :
    sendWebhook respond 0 =
      if (respond 0).delivered then [.attempt 0 (respond 0)]
      else if (respond 1).delivered then
        [.attempt 0 (respond 0), .wait 1000, .attempt 1 (respond 1)]
      else [.attempt 0 (respond 0), .wait 1000, .attempt 1 (respond 1),
            .wait 5000, .attempt 2 (respond 2)] := by
  by_cases d0 : (respond 0).delivered
  · rw [sendWebhook]
    simp [d0]
  · by_cases d1 : (respond 1).delivered
    · rw [sendWebhook, sendWebhook]
      simp [d0, d1, retryDelays, maxAttempts]
    · by_cases d2 : (respond 2).delivered
      · rw [sendWebhook, sendWebhook, sendWebhook]
        simp [d0, d1, d2, retryDelays, maxAttempts]
      · rw [sendWebhook, sendWebhook, sendWebhook]
        simp [d0, d1, d2, retryDelays, maxAttempts]

/-- The webhook endpoint of Scenario C: HTTP 500 on the first two
attempts, 200 on the third. -/
def scenarioRespond : Nat → FetchOutcome :=
  fun n => .status (if n < 2 then 500 else 200)

/-- C3: webhook delivery makes at most 3 total attempts for every
endpoint behaviour, the waits between consecutive attempts are the
prefix of the fixed table `[1s, 5s, 10s]` of length `attempts - 1`
(so at most 1s then 5s ever elapse), and the function always returns a
trace — exhausted failures are dropped, never propagated; on an
endpoint answering 500, 500, 200 exactly 3 attempts occur, spaced
1s then 5s. -/
theorem C3_webhook_retry :
    (∀ respond : Nat → FetchOutcome,
      attemptCount (sendWebhook respond 0) ≤ 3 ∧
      waits (sendWebhook respond 0)
        = retryDelays.take (attemptCount (sendWebhook respond 0) - 1)) ∧
    sendWebhook scenarioRespond 0
      = [.attempt 0 (.status 500), .wait 1000, .attempt 1 (.status 500),
         .wait 5000, .attempt 2 (.status 200)] ∧
    attemptCount (sendWebhook scenarioRespond 0) = 3 ∧
    waits (sendWebhook scenarioRespond 0) = [1000, 5000] := by
  have hsc : sendWebhook scenarioRespond 0
      = [.attempt 0 (.status 500), .wait 1000, .attempt 1 (.status 500),
         .wait 5000, .attempt 2 (.status 200)] := by
    rw [sendWebhook_trace]
    norm_num [scenarioRespond, FetchOutcome.delivered]
  refine ⟨?_, hsc, ?_, ?_⟩
  · intro respond
    rw [sendWebhook_trace]
    split_ifs <;> simp [attemptCount, waits, retryDelays]
  · rw [hsc]
    rfl
  · rw [hsc]
    rfl

/-! ### Single-image S3 path with idempotency (redaction/controller.ts `/redact/s3`) -/

/-- JavaScript truthiness of the optional `idempotency_key` string field:
`undefined` and the empty string are falsy. -/
def jsTruthyKey : Option String → Bool
  | none => false
  | some s => !(s == "")

/-- The collaborators of the `/redact/s3` handler.  `requestHash` stands
for `generateRequestHash` (a SHA-256 of the JSON encoding of the sorted
`{input, output, regions}` fields), whose concrete value is opaque here. -/
structure S3HandlerEnv where
  objectExists : String → String → Except String Bool
  getObject : S3Object → Except String ImageBuffer
  redactImage : ImageBuffer → List Region → ImageFormat → Option Int →
    Except String ProcessedImage
  putObject : S3OutputObject → ImageBuffer → Except String Unit
  requestHash : S3Object → S3OutputObject → List Region → String

/-- What one run of the handler's main block did. -/
structure S3RedactOutcome where
  response : S3RedactionResponse
  wrote : Bool
  skipped : Bool
  idempotencyKey : String
deriving DecidableEq, Repr

/-- The `measureAsync` body of the `/redact/s3` handler:
`idempotencyKey` is the caller's key `||` the derived request hash
(so an empty explicit key falls through to the hash, by JS falsiness);
the skip-if-exists branch requires `outputExists && requestData.idempotency_key`
— the *raw field's* truthiness, not the derived key.  Each `await`
propagates a rejection to the caller, modelled by the error matches. -/
def redactS3Handler (env : S3HandlerEnv) (requestData : S3RedactionRequest) :
    Except String S3RedactOutcome :=
  let idempotencyKey :=
    match requestData.idempotency_key with
    | some k => if k ≠ "" then k
        else env.requestHash requestData.input requestData.output requestData.regions
    | none => env.requestHash requestData.input requestData.output requestData.regions
  match env.objectExists requestData.output.bucket requestData.output.key with
  | .error e => .error e
  | .ok outputExists =>
    if outputExists && jsTruthyKey requestData.idempotency_key then
      .ok { response := { ok := true, output := some requestData.output,
                          processing_time_ms := 0, etag := none }
            wrote := false, skipped := true, idempotencyKey := idempotencyKey }
    else
      match env.getObject requestData.input with
      | .error e => .error e
      | .ok inputBuffer =>
        match env.redactImage inputBuffer requestData.regions
            requestData.output.format requestData.output.quality with
        | .error e => .error e
        | .ok processed =>
          match env.putObject requestData.output processed.buffer with
          | .error e => .error e
          | .ok _ =>
            .ok { response := { ok := true, output := some requestData.output,
                                processing_time_ms := processed.processingTimeMs,
                                etag := some processed.etag }
                  wrote := true, skipped := false, idempotencyKey := idempotencyKey }

/-- C5 (amended): on the S3 redaction path the skip-if-exists branch is
taken iff the caller supplied a *non-empty* explicit `idempotency_key`
and the destination exists (an empty explicit key is falsy in JS and
never skips); skipping returns `processing_time_ms = 0` without writing
to storage; with no explicit key the used key is the derived request
hash and the skip never triggers, whatever the existence check said. -/
theorem C5_s3_idempotency_skip (env : S3HandlerEnv) (req : S3RedactionRequest) (ex : Bool)
    (hex : env.objectExists req.output.bucket req.output.key = .ok ex) :
    (ex = true → jsTruthyKey req.idempotency_key = true →
      redactS3Handler env req = .ok
        { response := { ok := true, output := some req.output,
                        processing_time_ms := 0, etag := none }
          wrote := false, skipped := true
          idempotencyKey := req.idempotency_key.getD "" }) ∧
    (∀ out, redactS3Handler env req = .ok out →
      (out.skipped = true ↔ ex = true ∧ jsTruthyKey req.idempotency_key = true) ∧
      (out.skipped = true → out.response.processing_time_ms = 0 ∧ out.wrote = false) ∧
      (req.idempotency_key = none →
        out.idempotencyKey = env.requestHash req.input req.output req.regions ∧
        out.skipped = false)) := by
  constructor
  · intro hexT htruthy
    subst hexT
    rw [redactS3Handler, hex]
    dsimp only
    rw [if_pos (by rw [htruthy]; rfl)]
    rcases hk : req.idempotency_key with - | k
    · rw [hk] at htruthy
      simp [jsTruthyKey] at htruthy
    · have hkne : ¬ (k = "") := by
        rw [hk] at htruthy
        simpa [jsTruthyKey] using htruthy
      simp [hk, hkne]
  · intro out hout
    rw [redactS3Handler, hex] at hout
    dsimp only at hout
    by_cases hcond : (ex && jsTruthyKey req.idempotency_key) = true
    · rw [if_pos hcond] at hout
      injection hout with hout
      subst hout
      simp only [Bool.and_eq_true] at hcond
      refine ⟨iff_of_true rfl ⟨hcond.1, hcond.2⟩, fun _ => ⟨rfl, rfl⟩, ?_⟩
      intro hnone
      rw [hnone] at hcond
      simp [jsTruthyKey] at hcond
    · rw [if_neg hcond] at hout
      have hskip : out.skipped = false ∧
          out.idempotencyKey =
            (match req.idempotency_key with
             | some k => if k ≠ "" then k
                 else env.requestHash req.input req.output req.regions
             | none => env.requestHash req.input req.output req.regions) := by
        rcases hget : env.getObject req.input with e | buf <;> rw [hget] at hout <;>
          dsimp only at hout
        · cases hout
        rcases hred : env.redactImage buf req.regions req.output.format req.output.quality
          with e | processed <;> rw [hred] at hout <;> dsimp only at hout
        · cases hout
        rcases hput : env.putObject req.output processed.buffer with e | u <;>
          rw [hput] at hout <;> dsimp only at hout
        · cases hout
        injection hout with hout
        subst hout
        exact ⟨rfl, rfl⟩
      refine ⟨?_, ?_, ?_⟩
      · rw [hskip.1]
        exact iff_of_false (by simp)
          (fun h => hcond (by rw [h.1, h.2]; rfl))
      · rw [hskip.1]
        intro h
        cases h
      · intro hnone
        rw [hskip.2, hnone]
        exact ⟨rfl, hskip.1⟩

/-- A run with an explicitly supplied empty idempotency key and an
existing destination object. -/
def emptyKeyEnv : S3HandlerEnv where
  objectExists := fun _ _ => .ok true
  getObject := fun _ => .ok [7]
  redactImage := fun b _ _ _ =>
    .ok { buffer := b, format := .webp, etag := "etag2", processingTimeMs := 9,
          width := 1, height := 1 }
  putObject := fun _ _ => .ok ()
  requestHash := fun _ _ _ => "derivedhash"

def emptyKeyRequest : S3RedactionRequest where
  input := { bucket := "inb", key := "a.png" }
  output := { bucket := "outb", key := "a.webp", format := .webp, quality := none }
  regions := [{ coordinates := .pixel ⟨0, 0, 5, 5⟩, operation := .fill "#000000" }]
  idempotency_key := some ""

/-- Counterexample to C5 as stated: the caller supplies an explicit
(but empty) `idempotency_key` and the destination object exists, yet
the skip branch is not taken — the image is processed and written, with
the derived hash as key — because the skip condition tests JS
truthiness of the raw field and the empty string is falsy. -/
theorem C5_counterexample :
    emptyKeyRequest.idempotency_key = some "" ∧
    emptyKeyEnv.objectExists emptyKeyRequest.output.bucket emptyKeyRequest.output.key
      = .ok true ∧
    redactS3Handler emptyKeyEnv emptyKeyRequest = .ok
      { response := { ok := true, output := some emptyKeyRequest.output,
                      processing_time_ms := 9, etag := some "etag2" }
        wrote := true, skipped := false, idempotencyKey := "derivedhash" } := by
  refine ⟨rfl, rfl, ?_⟩
  rw [redactS3Handler]
  rfl

/-- The empty-key request with a non-empty explicit key instead. -/
def userKeyRequest : S3RedactionRequest :=
  { emptyKeyRequest with idempotency_key := some "userkey" }

/-- Witness for C5: with a non-empty explicit key and an existing
destination, the skip branch is taken with zero processing time and no
write; and every successful outcome of that run satisfies the
characterization. -/
theorem C5_s3_idempotency_skip_witness :
    (true = true → jsTruthyKey userKeyRequest.idempotency_key = true →
      redactS3Handler emptyKeyEnv userKeyRequest = .ok
        { response := { ok := true, output := some userKeyRequest.output,
                        processing_time_ms := 0, etag := none }
          wrote := false, skipped := true
          idempotencyKey := userKeyRequest.idempotency_key.getD "" }) ∧
    (∀ out, redactS3Handler emptyKeyEnv userKeyRequest = .ok out →
      (out.skipped = true ↔ true = true ∧ jsTruthyKey userKeyRequest.idempotency_key = true) ∧
      (out.skipped = true → out.response.processing_time_ms = 0 ∧ out.wrote = false) ∧
      (userKeyRequest.idempotency_key = none →
        out.idempotencyKey = emptyKeyEnv.requestHash userKeyRequest.input
          userKeyRequest.output userKeyRequest.regions ∧
        out.skipped = false)) :=
  C5_s3_idempotency_skip emptyKeyEnv userKeyRequest true rfl

/-! ### Job store eviction (jobStore.ts `createJob` / `cleanupOldJobs`) -/

def MAX_JOBS : Nat := 1000

def JOB_TTL_MS : Int := 24 * 60 * 60 * 1000

/-- A stored job as the eviction policy sees it: its map key (the
random id, modelled as a `Nat`) and its creation timestamp (ms).
The store's `Map` iterates in insertion order, modelled as a list. -/
structure StoredJob where
  id : Nat
  createdAt : Int
deriving DecidableEq, Repr

/-- `now - job.createdAt.getTime() > this.JOB_TTL_MS`. -/
def expired (now : Int) (job : StoredJob) : Bool :=
  now - job.createdAt > JOB_TTL_MS

/-- `cleanupOldJobs` of jobStore.ts: collect the ids of TTL-expired
jobs; if the store would still be over `MAX_JOBS`, append the ids of
the oldest entries (sorting the *whole* map by `createdAt`, expired
entries included) until exactly at capacity; then delete the collected
ids. -/
def cleanupOldJobs (now : Int) (jobs : List StoredJob) : List StoredJob :=
  let ttlDeletes := (jobs.filter (expired now)).map StoredJob.id
  let remaining := jobs.length - ttlDeletes.length
  let jobsToDelete :=
    if remaining > MAX_JOBS then
      ttlDeletes ++
        ((jobs.mergeSort (fun a b => a.createdAt ≤ b.createdAt)).take
            (remaining - MAX_JOBS)).map StoredJob.id
    else ttlDeletes
  jobs.filter (fun j => !(jobsToDelete.contains j.id))

/-- `createJob` at the store level: clean up first, then insert the new
job (fresh random id) at the end of the map. -/
def storeCreateJob (now : Int) (id : Nat) (jobs : List StoredJob) : List StoredJob :=
  cleanupOldJobs now jobs ++ [{ id := id, createdAt := now }]

/-- Store contents reachable by a sequence of `createJob` calls with
nondecreasing wall-clock time and fresh random ids; the time index is
the time of the most recent call. -/
inductive StoreReachable : Int → List StoredJob → Prop where
  | empty (t : Int) : StoreReachable t []
  | create {t : Int} {jobs : List StoredJob} (t2 : Int) (id : Nat)
      (ht : t ≤ t2) (hid : id ∉ jobs.map StoredJob.id)
      (h : StoreReachable t jobs) :
      StoreReachable t2 (storeCreateJob t2 id jobs)

lemma not_contains_not_mem {l : List Nat} {a : Nat} (h : (!(l.contains a)) = true) :
    a ∉ l := by
  simp [List.contains] at h
  exact h

lemma expired_mem_ttlDeletes {now : Int} {jobs : List StoredJob} {j : StoredJob}
    (hj : j ∈ jobs) (hexp : expired now j = true) :
    j.id ∈ (jobs.filter (expired now)).map StoredJob.id :=
  List.mem_map.mpr ⟨j, List.mem_filter.mpr ⟨hj, hexp⟩, rfl⟩

/-- Every job surviving `cleanupOldJobs` is a non-expired member of the
original store. -/
lemma cleanup_mem_not_expired (now : Int) (jobs : List StoredJob) :
    ∀ j ∈ cleanupOldJobs now jobs, j ∈ jobs ∧ expired now j = false := by
  intro j hj
  unfold cleanupOldJobs at hj
  rw [List.mem_filter] at hj
  obtain ⟨hjmem, hjpred⟩ := hj
  refine ⟨hjmem, ?_⟩
  by_cases hexp : expired now j = true
  · exfalso
    have hmemId : j.id ∈ (jobs.filter (expired now)).map StoredJob.id :=
      expired_mem_ttlDeletes hjmem hexp
    have hcontains : ∀ bigger : List Nat,
        j.id ∈ bigger → (!(bigger.contains j.id)) = true → False := by
      intro bigger hmem hnc
      simp [List.contains] at hnc
      exact hnc hmem
    by_cases hover : jobs.length - ((jobs.filter (expired now)).map StoredJob.id).length
        > MAX_JOBS
    · rw [if_pos hover] at hjpred
      exact hcontains _ (List.mem_append_left _ hmemId) hjpred
    · rw [if_neg hover] at hjpred
      exact hcontains _ hmemId hjpred
  · revert hexp
    cases expired now j <;> simp

lemma cleanup_sublist (now : Int) (jobs : List StoredJob) :
    List.Sublist (cleanupOldJobs now jobs) jobs := by
  unfold cleanupOldJobs
  exact List.filter_sublist _

lemma length_filter_not_add (p : StoredJob → Bool) (l : List StoredJob) :
    (l.filter (fun j => !(p j))).length + (l.filter p).length = l.length := by
  induction l with
  | nil => simp
  | cons a l ih =>
    cases h : p a <;> simp [List.filter_cons, h] <;> omega

/-- With pairwise-distinct ids, removing one present id drops exactly
one element. -/
lemma filter_removeId_length {l : List StoredJob} {x : StoredJob}
    (hnodup : (l.map StoredJob.id).Nodup) (hx : x ∈ l) :
    (l.filter (fun j => !(j.id == x.id))).length + 1 = l.length := by
  induction l with
  | nil => cases hx
  | cons a l ih =>
    rw [List.map_cons, List.nodup_cons] at hnodup
    by_cases ha : a.id = x.id
    · have hkeep : ∀ j ∈ l, (fun j => !(j.id == x.id)) j = true := by
        intro j hj
        have hne : j.id ≠ a.id := by
          intro hEq
          exact hnodup.1 (hEq ▸ List.mem_map_of_mem StoredJob.id hj)
        simp [ha ▸ hne]
      have hfl : (l.filter (fun j => !(j.id == x.id))).length = l.length := by
        rw [← List.countP_eq_length_filter]
        exact List.countP_eq_length.mpr hkeep
      rw [List.filter_cons, if_neg (by simp [ha])]
      rw [hfl, List.length_cons]
    · have hxl : x ∈ l := by
        rcases List.mem_cons.mp hx with rfl | hmem
        · exact absurd rfl ha
        · exact hmem
      have := ih hnodup.2 hxl
      rw [List.filter_cons, if_pos (by simp [ha])]
      simp only [List.length_cons]
      omega

/-- After cleanup the store holds at most `MAX_JOBS` jobs, provided it
held at most `MAX_JOBS + 1` before (the bound maintained by the
creation sequence) and ids are distinct. -/
lemma cleanup_length_le (now : Int) (jobs : List StoredJob)
    (hlen : jobs.length ≤ MAX_JOBS + 1) (hnodup : (jobs.map StoredJob.id).Nodup) :
    (cleanupOldJobs now jobs).length ≤ MAX_JOBS := by
  unfold cleanupOldJobs
  dsimp only
  have hdlen : ((jobs.filter (expired now)).map StoredJob.id).length
      = (jobs.filter (expired now)).length := List.length_map _ _
  by_cases hover : jobs.length - ((jobs.filter (expired now)).map StoredJob.id).length
      > MAX_JOBS
  · rw [if_pos hover]
    -- over capacity after TTL removal: with at most MAX_JOBS + 1 jobs this
    -- forces no expired job and exactly MAX_JOBS + 1 entries
    have hd0 : (jobs.filter (expired now)).length = 0 := by omega
    have hlen1001 : jobs.length = MAX_JOBS + 1 := by omega
    have hfil : jobs.filter (expired now) = [] := List.length_eq_zero.mp hd0
    rw [hfil]
    have hsortLen : (jobs.mergeSort (fun a b => a.createdAt ≤ b.createdAt)).length
        = jobs.length := (List.mergeSort_perm jobs _).length_eq
    have hsortNe : jobs.mergeSort (fun a b => a.createdAt ≤ b.createdAt) ≠ [] := by
      intro hnil
      rw [hnil] at hsortLen
      simp [hlen1001] at hsortLen
    obtain ⟨y, ys, hy⟩ := List.exists_cons_of_ne_nil hsortNe
    have hyMem : y ∈ jobs := by
      have : y ∈ jobs.mergeSort (fun a b => a.createdAt ≤ b.createdAt) := by
        rw [hy]
        exact List.mem_cons_self _ _
      exact (List.mergeSort_perm jobs _).mem_iff.mp this
    have htake : (jobs.length - ([] : List Nat).length - MAX_JOBS) = 1 := by
      simp [hlen1001]
    rw [hy]
    simp only [List.length_nil, List.map_nil, List.nil_append, hlen1001]
    have hone : MAX_JOBS + 1 - 0 - MAX_JOBS = 1 := by omega
    rw [hone]
    simp only [List.take_succ_cons, List.take_zero, List.map_cons, List.map_nil]
    have hcnt : ∀ j : StoredJob, (!(List.contains [y.id] j.id)) = (!(j.id == y.id)) := by
      intro j
      by_cases h : j.id = y.id <;> simp [List.contains, h]
    have hrw : jobs.filter (fun j => !(List.contains [y.id] j.id))
        = jobs.filter (fun j => !(j.id == y.id)) :=
      List.filter_congr (fun j _ => hcnt j)
    rw [hrw]
    have := filter_removeId_length hnodup hyMem
    omega
  · rw [if_neg hover]
    -- at most MAX_JOBS non-expired entries remain
    have hmono : (jobs.filter
          (fun j => !((( jobs.filter (expired now)).map StoredJob.id).contains j.id))).length
        ≤ (jobs.filter (fun j => !(expired now j))).length := by
      rw [← List.countP_eq_length_filter, ← List.countP_eq_length_filter]
      apply List.countP_mono_left
      intro j hj hpred
      by_cases hexp : expired now j = true
      · exact absurd (expired_mem_ttlDeletes hj hexp) (not_contains_not_mem hpred)
      · revert hexp
        cases expired now j <;> simp
    have hsplit := length_filter_not_add (expired now) jobs
    omega

/-- The invariant of reachable stores: at most `MAX_JOBS + 1` entries,
pairwise-distinct ids, and every entry created no more than the TTL
before the last call (and not in the future). -/
lemma storeReachable_inv {t : Int} {jobs : List StoredJob} (h : StoreReachable t jobs) :
    jobs.length ≤ MAX_JOBS + 1 ∧ (jobs.map StoredJob.id).Nodup ∧
    ∀ j ∈ jobs, 0 ≤ t - j.createdAt ∧ t - j.createdAt ≤ JOB_TTL_MS := by
  induction h with
  | empty t => simp
  | @create t jobs t2 id ht hid h ih =>
    obtain ⟨ihlen, ihnodup, ihage⟩ := ih
    have hclean := cleanup_mem_not_expired t2 jobs
    have hcleanSub := cleanup_sublist t2 jobs
    refine ⟨?_, ?_, ?_⟩
    · rw [storeCreateJob, List.length_append, List.length_cons, List.length_nil]
      have := cleanup_length_le t2 jobs ihlen ihnodup
      omega
    · rw [storeCreateJob]
      have hmapSub : List.Sublist ((cleanupOldJobs t2 jobs).map StoredJob.id)
          (jobs.map StoredJob.id) :=
        hcleanSub.map _
      have hnodupClean : ((cleanupOldJobs t2 jobs).map StoredJob.id).Nodup :=
        hmapSub.nodup ihnodup
      have hidClean : id ∉ (cleanupOldJobs t2 jobs).map StoredJob.id :=
        fun hmem => hid (hmapSub.subset hmem)
      simp [List.nodup_append, hnodupClean, hidClean]
    · intro j hj
      rw [storeCreateJob, List.mem_append] at hj
      rcases hj with hj | hj
      · obtain ⟨hjmem, hjfresh⟩ := hclean j hj
        have hage := ihage j hjmem
        have : ¬ (t2 - j.createdAt > JOB_TTL_MS) := by
          intro hgt
          rw [show expired t2 j = decide (t2 - j.createdAt > JOB_TTL_MS) from rfl] at hjfresh
          simp [hgt] at hjfresh
        constructor
        · omega
        · omega
      · rw [List.mem_singleton] at hj
        subst hj
        refine ⟨by simp, by simp [JOB_TTL_MS]⟩

/-- C6 (amended): jobs are removed only by the eviction policy, which
runs on every job creation *before* the new job is inserted: expired
jobs (older than 24h) are removed, then the oldest remaining jobs until
at capacity, and only then is the new job added — so immediately after
every `createJob` the store holds at most `MAX_JOBS + 1 = 1001` jobs
(not 1000), and no job created more than 24 hours before the call. -/
theorem C6_store_eviction_bound (t : Int) (jobs : List StoredJob)
    (h : StoreReachable t jobs) :
    jobs.length ≤ MAX_JOBS + 1 ∧
    ∀ j ∈ jobs, 0 ≤ t - j.createdAt ∧ t - j.createdAt ≤ JOB_TTL_MS := by
  obtain ⟨hlen, -, hage⟩ := storeReachable_inv h
  exact ⟨hlen, hage⟩

/-- Witness for C6: a store after one creation at time 5 holds one job
of age 0. -/
theorem C6_store_eviction_bound_witness :
    (storeCreateJob 5 0 []).length ≤ MAX_JOBS + 1 ∧
    ∀ j ∈ storeCreateJob 5 0 [], 0 ≤ (5 : Int) - j.createdAt ∧
      (5 : Int) - j.createdAt ≤ JOB_TTL_MS :=
  C6_store_eviction_bound 5 (storeCreateJob 5 0 [])
    (StoreReachable.create (t := 0) 5 0 (by omega) (by simp) (StoreReachable.empty 0))

/-- `n` back-to-back `createJob` calls at time 0 with fresh ids. -/
def iterCreate : Nat → List StoredJob
  | 0 => []
  | n + 1 => storeCreateJob 0 n (iterCreate n)

lemma iterCreate_spec : ∀ n, n ≤ MAX_JOBS + 1 →
    (iterCreate n).length = n ∧ ∀ j ∈ iterCreate n, j.createdAt = 0 := by
  intro n
  induction n with
  | zero => intro _; exact ⟨rfl, by intro j hj; cases hj⟩
  | succ n ih =>
    intro hle
    obtain ⟨ihlen, ihage⟩ := ih (by omega)
    have hfil : (iterCreate n).filter (expired 0) = [] := by
      rw [List.filter_eq_nil_iff]
      intro j hj
      have := ihage j hj
      simp [expired, this, JOB_TTL_MS]
    have hclean : cleanupOldJobs 0 (iterCreate n) = iterCreate n := by
      unfold cleanupOldJobs
      dsimp only
      rw [hfil]
      simp only [List.map_nil, List.length_nil, Nat.sub_zero]
      rw [if_neg (by rw [ihlen]; omega)]
      have hall : ∀ j ∈ iterCreate n, (!(List.contains ([] : List Nat) j.id)) = true := by
        intro j _
        simp [List.contains]
      exact List.filter_eq_self.mpr hall
    rw [show iterCreate (n + 1)
        = cleanupOldJobs 0 (iterCreate n) ++ [{ id := n, createdAt := 0 }] from rfl,
      hclean]
    constructor
    · rw [List.length_append, ihlen]
      rfl
    · intro j hj
      rw [List.mem_append] at hj
      rcases hj with hj | hj
      · exact ihage j hj
      · rw [List.mem_singleton] at hj
        subst hj
        rfl

/-- Counterexample to C6 as stated: 1001 consecutive `createJob` calls
(at one instant, with fresh ids) leave the store with 1001 jobs — more
than the claimed bound of 1000 — because the eviction runs *before* the
new job is inserted and trims only to 1000. -/
theorem C6_counterexample :
    (iterCreate 1001).length = 1001 ∧ MAX_JOBS < (iterCreate 1001).length := by
  have h := iterCreate_spec 1001 (by norm_num [MAX_JOBS])
  refine ⟨h.1, ?_⟩
  rw [h.1]
  norm_num [MAX_JOBS]

/-! ### Pixelate operation (redaction/pipeline.ts `applyPixelate`) -/

/-- The image-operations collaborator interface of the spec: extract a
sub-rectangle, nearest-kernel resize, composite an overlay at an
offset. -/
structure ImageOps (α : Type) where
  extract : α → PixelCoordinates → α
  resizeNearest : α → Int → Int → α
  compositeAt : α → α → Int → Int → α

/-- A sharp pipeline on one input buffer.  `resize` is an *options
setter*: calling it again in the same pipeline replaces the previous
resize options, and only the final options are applied when the
pipeline executes (`toBuffer`); previous `resize` calls in the same
pipeline are ignored. -/
structure SharpPipeline (α : Type) where
  image : α
  resizeOptions : Option (Int × Int)

/-- `.resize(w, h, {kernel: nearest})` on a pipeline: records the
target dimensions, replacing any earlier `resize` of this pipeline. -/
def SharpPipeline.resize {α : Type} (p : SharpPipeline α) (w h : Int) : SharpPipeline α :=
  { p with resizeOptions := some (w, h) }

/-- `.toBuffer()`: execute the pipeline — at most one resize runs. -/
def SharpPipeline.toBuffer {α : Type} (ops : ImageOps α) (p : SharpPipeline α) : α :=
  match p.resizeOptions with
  | some (w, h) => ops.resizeNearest p.image w h
  | none => p.image

/-- `applyPixelate` of pipeline.ts:
`pixelWidth = Math.max(1, Math.floor(coords.width / blockSize))` (the
operands are integers, so `Math.floor` of the JS division is floor
division), then ONE sharp pipeline
`sharp(currentBuffer).extract(rect).resize(pixelWidth, pixelHeight,
nearest).resize(coords.width, coords.height, nearest).toBuffer()` —
there is no `toBuffer()` between the two `resize` calls, so the second
`resize` replaces the first and only the up-sizing to the rectangle's
own dimensions executes — and finally composite the region back at the
rectangle's offset. -/
def applyPixelate {α : Type} (ops : ImageOps α) (image : α)
    (coords : PixelCoordinates) (blockSize : Int) : α :=
  let pixelWidth := max 1 (Int.fdiv coords.width blockSize)
  let pixelHeight := max 1 (Int.fdiv coords.height blockSize)
  let region := SharpPipeline.toBuffer ops
    ((({ image := ops.extract image coords, resizeOptions := none } : SharpPipeline α).resize
        pixelWidth pixelHeight).resize coords.width coords.height)
  ops.compositeAt image region coords.x coords.y

/-- The spec's `Pixelate(rect, block)` (what C9 claims the code does):
downscale the sub-rectangle to `max(1, floor(w/block)) ×
max(1, floor(h/block))` using nearest-neighbor, upscale back to the
original rectangle size with nearest-neighbor, composite back at the
rectangle's offset. -/
def pixelateSpec {α : Type} (ops : ImageOps α) (image : α)
    (coords : PixelCoordinates) (blockSize : Int) : α :=
  ops.compositeAt image
    (ops.resizeNearest
      (ops.resizeNearest (ops.extract image coords)
        (max 1 (Int.fdiv coords.width blockSize))
        (max 1 (Int.fdiv coords.height blockSize)))
      coords.width coords.height)
    coords.x coords.y

/-- The free (initial) model of the image operations: every call is
recorded syntactically, so two computations are equal exactly when they
perform the same operations. -/
inductive ImgExpr where
  | source
  | extract (e : ImgExpr) (c : PixelCoordinates)
  | resizeNearest (e : ImgExpr) (w h : Int)
  | compositeAt (base overlay : ImgExpr) (x y : Int)
deriving DecidableEq, Repr

def exprOps : ImageOps ImgExpr where
  extract := .extract
  resizeNearest := .resizeNearest
  compositeAt := .compositeAt

/-- C9 (code_bug): the code does NOT perform the claimed pixelation.
Because the two `resize` calls share one sharp pipeline, the second
replaces the first: for every image-operations implementation, image,
rectangle and size code, `applyPixelate` merely resizes the extracted
sub-rectangle to its own width and height (an identity-size resize) and
composites it back — the downscale to
`max(1, floor(w/block)) × max(1, floor(h/block))` that the claim (and
the code's own `pixelWidth`/`pixelHeight` computation) intends never
executes.  On the free model with a 48×48 region and size S
(block 6) the executed operations differ from the claimed ones: the
8×8 downscale step is missing. -/
theorem C9_pixelate_missing_downscale :
    (∀ (α : Type) (ops : ImageOps α) (image : α) (coords : PixelCoordinates)
      (size : SizeCode),
      applyPixelate ops image coords (PIXELATE_SIZE_MAP size)
        = ops.compositeAt image
            (ops.resizeNearest (ops.extract image coords) coords.width coords.height)
            coords.x coords.y) ∧
    PIXELATE_SIZE_MAP .S = 6 ∧ PIXELATE_SIZE_MAP .M = 12 ∧ PIXELATE_SIZE_MAP .L = 24 ∧
    max 1 (Int.fdiv 48 (PIXELATE_SIZE_MAP .S)) = 8 ∧
    applyPixelate exprOps .source ⟨0, 0, 48, 48⟩ (PIXELATE_SIZE_MAP .S)
      ≠ pixelateSpec exprOps .source ⟨0, 0, 48, 48⟩ (PIXELATE_SIZE_MAP .S) ∧
    pixelateSpec exprOps .source ⟨0, 0, 48, 48⟩ (PIXELATE_SIZE_MAP .S)
      = .compositeAt .source
          (.resizeNearest (.resizeNearest (.extract .source ⟨0, 0, 48, 48⟩) 8 8) 48 48)
          0 0 :=
  ⟨fun _ _ _ _ _ => rfl, rfl, rfl, rfl, by decide, by decide, by decide⟩

/-! ### Batch request validation (schemas.ts, batch controller) -/

/-- Hex digit check of `colorSchema`'s regex character class. -/
def hexDigit (c : Char) : Bool :=
  c.isDigit || ('a' ≤ c && c ≤ 'f') || ('A' ≤ c && c ≤ 'F')

/-- `colorSchema`: `#` followed by exactly 6 or 8 hex digits. -/
def colorOk (s : String) : Bool :=
  match s.toList with
  | '#' :: rest => (rest.length == 6 || rest.length == 8) && rest.all hexDigit
  | _ => false

/-- `pixelCoordinatesSchema` / `normalizedCoordinatesSchema` checks. -/
def coordinatesOk : Coordinates → Bool
  | .pixel c => 0 ≤ c.x && 0 ≤ c.y && 1 ≤ c.width && 1 ≤ c.height
  | .normalized c =>
      0 ≤ c.x_norm && c.x_norm ≤ 1 && 0 ≤ c.y_norm && c.y_norm ≤ 1 &&
      0 ≤ c.w_norm && c.w_norm ≤ 1 && 0 ≤ c.h_norm && c.h_norm ≤ 1

/-- The `operation` variants: size codes are enum-checked by the type;
fill colors must match `colorSchema`. -/
def operationOk : RedactionOperation → Bool
  | .blur _ => true
  | .pixelate _ => true
  | .fill color => colorOk color

def regionOk (r : Region) : Bool :=
  coordinatesOk r.coordinates && operationOk r.operation

/-- `s3ObjectSchema`: nonempty bucket and key. -/
def s3ObjectOk (o : S3Object) : Bool :=
  1 ≤ o.bucket.length && 1 ≤ o.key.length

/-- The `output` object of `s3RedactionRequestSchema`: nonempty bucket
and key, optional quality in `[1, 100]`. -/
def s3OutputOk (o : S3OutputObject) : Bool :=
  1 ≤ o.bucket.length && 1 ≤ o.key.length &&
  (match o.quality with
   | none => true
   | some q => 1 ≤ q && q ≤ 100)

/-- `s3RedactionRequestSchema` = `batchItemSchema`: valid input/output
references and 1–20 valid regions (the idempotency key is any optional
string). -/
def batchItemOk (req : S3RedactionRequest) : Bool :=
  s3ObjectOk req.input && s3OutputOk req.output &&
  1 ≤ req.regions.length && req.regions.length ≤ 20 &&
  req.regions.all regionOk

/-- `batchRequestSchema`: 1–10 valid items plus an optional webhook URL
(the `z.string().url()` check is abstracted as a Boolean input). -/
def batchRequestOk (items : List S3RedactionRequest) (webhookOk : Bool) : Bool :=
  1 ≤ items.length && items.length ≤ 10 && items.all batchItemOk && webhookOk

/-- The `POST /redact/batch` handler's decision: `batchRequestSchema.parse`
— on failure reply 400 `VALIDATION_ERROR` and never touch the job store;
on success `jobStore.createJob(items, webhook_url)` and reply 202. -/
def postBatchHandler (items : List S3RedactionRequest) (webhookOk : Bool) : Option Job :=
  if batchRequestOk items webhookOk then some (createJob items) else none

/-- C10: a batch submission whose items are individually schema-valid
(with a valid optional webhook URL) is accepted — and a job created —
iff it contains between 1 and 10 items; with 0 items or more than 10
items it is rejected with a validation error and no job is created. -/
theorem C10_batch_item_bounds (items : List S3RedactionRequest) (webhookOk : Bool)
    (hitems : ∀ it ∈ items, batchItemOk it = true) (hwh : webhookOk = true) :
    ((postBatchHandler items webhookOk).isSome ↔
      1 ≤ items.length ∧ items.length ≤ 10) ∧
    (items.length = 0 ∨ 10 < items.length →
      postBatchHandler items webhookOk = none) ∧
    (1 ≤ items.length → items.length ≤ 10 →
      postBatchHandler items webhookOk = some (createJob items)) := by
  subst hwh
  have hall : items.all batchItemOk = true := List.all_eq_true.mpr hitems
  rw [postBatchHandler, batchRequestOk, hall]
  by_cases h1 : 1 ≤ items.length
  · by_cases h2 : items.length ≤ 10
    · rw [if_pos (by simp [h1, h2])]
      refine ⟨iff_of_true rfl ⟨h1, h2⟩, ?_, fun _ _ => rfl⟩
      intro hbad
      rcases hbad with h | h <;> omega
    · rw [if_neg (by simp; intros; omega)]
      refine ⟨iff_of_false (by simp) (fun h => h2 h.2), fun _ => rfl, ?_⟩
      intro _ h
      exact absurd h h2
  · rw [if_neg (by simp; intros; omega)]
    refine ⟨iff_of_false (by simp) (fun h => h1 h.1), fun _ => rfl, ?_⟩
    intro h
    exact absurd h h1

/-- A schema-valid batch item for the C10 witness. -/
def validItem : S3RedactionRequest where
  input := { bucket := "inb", key := "src.png" }
  output := { bucket := "outb", key := "dst.webp", format := .webp, quality := some 80 }
  regions := [{ coordinates := .pixel ⟨0, 0, 10, 10⟩, operation := .fill "#112233" }]
  idempotency_key := none

/-- Witness for C10: a single-item batch of a valid item is accepted
and creates the job; the bounds characterization holds at it. -/
theorem C10_batch_item_bounds_witness :
    (((postBatchHandler [validItem] true).isSome ↔
      1 ≤ ([validItem] : List S3RedactionRequest).length ∧
      ([validItem] : List S3RedactionRequest).length ≤ 10) ∧
    (([validItem] : List S3RedactionRequest).length = 0 ∨
      10 < ([validItem] : List S3RedactionRequest).length →
      postBatchHandler [validItem] true = none) ∧
    (1 ≤ ([validItem] : List S3RedactionRequest).length →
      ([validItem] : List S3RedactionRequest).length ≤ 10 →
      postBatchHandler [validItem] true = some (createJob [validItem]))) :=
  C10_batch_item_bounds [validItem] true (by decide) rfl

end ImageRedaction
